import Mathlib

/-!
Verification development for the `arg-helper` library
(`src/argHelperFunctions.ts`, `src/models.ts`).

The TypeScript source is shallowly embedded: JavaScript runtime values that
can appear in the parsed-argument mapping produced by `@std/cli`'s
`parseArgs` are modelled by `JSValue`, the mapping itself (a JS object) by an
association list with JS-object key semantics (insertion order, in-place
update, `delete`), and the observable effects of `validateArgs`
(`console.log`, `console.error`, the optional cleanup callback and
`Deno.exit`) by an explicit effect log and outcome value.

Terminal styling (`cyan`, `magenta`, `yellow`, `red` from `@std/fmt/colors`)
is modelled as the identity on strings: the specification treats styling as a
pure string decoration external to the system, and every property below is
about the styling-stripped text (`stripAnsiCode` view), which is exactly what
identity styling produces.  The `colorArg` helper keeps the source's
split-on-comma / re-join structure.
-/

/-- A JavaScript value that can occur in the parsed-argument mapping:
strings, booleans, numbers, the `_` array of leftover positionals, and the
`undefined` value (which JS distinguishes from a missing key only through the
`in` operator). -/
inductive JSValue where
  | str (s : String)
  | bool (b : Bool)
  | num (n : Int)
  | strList (l : List String)
  | undef
deriving DecidableEq, Repr

/-- JS truthiness (`!!value`): empty string, `false`, `0` and `undefined`
are falsy; arrays are always truthy. -/
def JSValue.truthy : JSValue → Bool
  | .str s => !s.isEmpty
  | .bool b => b
  | .num n => n != 0
  | .strList _ => true
  | .undef => false

/-- The parsed-argument mapping (the `Args` object returned by `parseArgs`):
a JS object modelled as an association list in insertion order with unique
keys maintained by the operations below. -/
abbrev ArgsMap := List (String × JSValue)

/-- JS `key in obj`: does the object have the key (even when its stored
value is `undefined`)? -/
def hasKey : ArgsMap → String → Bool
  | [], _ => false
  | kv :: rest, key => kv.1 == key || hasKey rest key

/-- JS property read `obj[key]`: the stored value, or the `undefined` value
when the key is missing. -/
def getVal : ArgsMap → String → JSValue
  | [], _ => .undef
  | kv :: rest, key => if kv.1 == key then kv.2 else getVal rest key

/-- JS property write `obj[key] = v`: update the key in place when it
exists, otherwise append it at the end (JS insertion order). -/
def setKey : ArgsMap → String → JSValue → ArgsMap
  | [], key, v => [(key, v)]
  | kv :: rest, key, v => if kv.1 == key then (kv.1, v) :: rest else kv :: setKey rest key v

/-- JS `delete obj[key]`. -/
def delKey : ArgsMap → String → ArgsMap
  | [], _ => []
  | kv :: rest, key => if kv.1 == key then delKey rest key else kv :: delKey rest key

/-- JS coercion of a possibly-`undefined` string to a property key, as
performed by `x in obj` and `obj[x]`: `undefined` becomes the literal string
`"undefined"`. -/
def jsKey : Option String → String
  | some s => s
  | none => "undefined"

/-- An argument declaration (`Argument` in `src/models.ts`).  The optional
`validationFunction` receives the looked-up value (possibly the `undefined`
value) and the optional `validationFailedMessage` produces the message for
an offending value. -/
structure Argument where
  name : String
  shortName : Option String := none
  description : String := ""
  required : Option Bool := none
  validationFunction : Option (JSValue → Bool) := none
  validationFailedMessage : Option (JSValue → String) := none

/-- A script declaration (`ScriptDefinition` in `src/models.ts`).
`anyArgRequired` is read by the orchestrator as a truthy flag; it is not
declared in `models.ts`, so an absent property (JS `undefined`, falsy) is
modelled as `false`. -/
structure ScriptDefinition where
  arguments : List Argument
  scriptDescription : String := ""
  helpFlags : Option (String × Option String) := none
  anyArgRequired : Bool := false

section Styling

/-- Styling modelled as the identity (stripped view); see the module
docstring. -/
def cyan (s : String) : String := s

/-- Styling modelled as the identity (stripped view). -/
def magenta (s : String) : String := s

/-- Styling modelled as the identity (stripped view). -/
def yellow (s : String) : String := s

/-- Styling modelled as the identity (stripped view). -/
def red (s : String) : String := s

/-- JS `text.split(',')` on the underlying character list: `acc` holds the
(reversed) characters of the current chunk. -/
def splitCommaAux : List Char → List Char → List (List Char)
  | [], acc => [acc.reverse]
  | c :: cs, acc =>
    if c = ',' then acc.reverse :: splitCommaAux cs [] else splitCommaAux cs (c :: acc)

/-- JS `text.split(',')`. -/
def splitComma (s : String) : List String :=
  (splitCommaAux s.data []).map (fun l => { data := l })

/-- JS `parts.join(',')` on character lists. -/
def joinCommaChars : List (List Char) → List Char
  | [] => []
  | [x] => x
  | x :: y :: rest => x ++ ',' :: joinCommaChars (y :: rest)

/-- JS `parts.join(',')`. -/
def joinComma (parts : List String) : String :=
  { data := joinCommaChars (parts.map String.data) }

/-- `colorArg` from the source: split the label on commas, style each token,
and re-join with commas. -/
def colorArg (argText : String) (colorFn : String → String) : String :=
  joinComma ((splitComma argText).map colorFn)

end Styling

/-- `' '.repeat n`. -/
def spaces (n : Nat) : String :=
  { data := List.replicate n ' ' }

/-- JS string truthiness of an optional short name (`if (arg.shortName)`):
`undefined` and the empty string are falsy. -/
def shortNameTruthy : Option String → Bool
  | some s => !s.isEmpty
  | none => false

/-- `getArgLineLength` from the source: the length of the plain label
`"--" + name + (shortName ? ", -" + shortName : "")`. -/
def getArgLineLength : String × Option String → Nat
  | (name, shortName) =>
    ("--" ++ name ++
      (if shortNameTruthy shortName then ", -" ++ shortName.getD "" else "")).length

/-- The label portion of an argument's help line, exactly the string whose
length `getArgLineLength` measures. -/
def argLabel (arg : Argument) : String :=
  "--" ++ arg.name ++
    (if shortNameTruthy arg.shortName then ", -" ++ arg.shortName.getD "" else "")

/-- `.reduce((max, current) => max < current ? current : max)` from the
source, specialised to `Nat`.  The source always applies it to a non-empty
list (a sentinel is pushed first); the `[]` case is unreachable there. -/
def reduceMax : List Nat → Nat
  | [] => 0
  | x :: xs => xs.foldl (fun mx cur => if mx < cur then cur else mx) x

/-- The shared column width computed inside `buildHelpText`: the maximum
`getArgLineLength` over the declared arguments' `(name, shortName)` pairs
plus the pushed `['']` sentinel (whose label `"--"` has length 2).  The
help-flag label is *not* included. -/
def maxArgLineLength (definition : ScriptDefinition) : Nat :=
  let argNames : List (String × Option String) :=
    definition.arguments.map (fun a => (a.name, a.shortName)) ++ [("", none)]
  reduceMax (argNames.map getArgLineLength)

/-- `buildArgLine` from the source. -/
def buildArgLine (arg : Argument) (maxArgLineLength : Nat) : String :=
  let argText := argLabel arg
  let argLength := argText.length
  let extraEndSpaceCount : Int := max ((maxArgLineLength : Int) - argLength + 4) 4
  let argText := "  " ++ colorArg argText cyan
  let argText := argText ++ spaces extraEndSpaceCount.toNat
  let argText := argText ++
    (if arg.required.isSome && !(arg.required.getD true) then yellow "(optional)"
     else magenta "(required)")
  argText ++ " - " ++ arg.description

/-- The label portion of the help-flag line (`'--' + name`, plus
`', ' + '-' + shortName` when the short name is truthy). -/
def helpLabel (arg : String × Option String) : String :=
  "--" ++ arg.1 ++
    (if shortNameTruthy arg.2 then ", " ++ "-" ++ arg.2.getD "" else "")

/-- `buildHelpLine` from the source. -/
def buildHelpLine (arg : String × Option String) (maxArgLineLength : Nat) : String :=
  let helpLine := helpLabel arg
  let spaceCount : Int := max 3 ((maxArgLineLength : Int) - helpLine.length + 3)
  let helpLine := colorArg helpLine cyan
  let helpLine := helpLine ++ spaces spaceCount.toNat ++ " - show this help text"
  "  " ++ helpLine

/-- `buildHelpText` from the source.  The `Array.isArray(definition.helpFlags)`
test is presence of the optional field. -/
def buildHelpText (definition : ScriptDefinition) : String :=
  let helpText := definition.scriptDescription ++ "\nArguments:\n"
  let helpText := helpText ++
    String.join (definition.arguments.map
      (fun arg => buildArgLine arg (maxArgLineLength definition) ++ "\n"))
  let helpText := helpText ++ "\n"
  match definition.helpFlags with
  | some hf => helpText ++ buildHelpLine hf (maxArgLineLength definition)
  | none => helpText ++ buildHelpLine ("help", some "h") (maxArgLineLength definition)

/-- The value `validateArgument` looks up:
`arg.name in parsedArgs ? parsedArgs[arg.name] : parsedArgs[arg.shortName ?? '']`. -/
def lookupArgValue (parsedArgs : ArgsMap) (arg : Argument) : JSValue :=
  if hasKey parsedArgs arg.name then getVal parsedArgs arg.name
  else getVal parsedArgs (arg.shortName.getD "")

/-- One line of console output, tagged with its channel
(`console.log` = `out`, `console.error` = `err`). -/
inductive OutLine where
  | out (s : String)
  | err (s : String)
deriving DecidableEq, Repr

/-- `validateArgument` from the source.  Returns the boolean result together
with the `console.error` lines it emits (at most one, on the failure path). -/
def validateArgument (parsedArgs : ArgsMap) (arg : Argument) : Bool × List OutLine :=
  let defaultValidationFunction : JSValue → Bool :=
    fun value => value.truthy || arg.required == some false
  let defaultErrorMessage : JSValue → String :=
    arg.validationFailedMessage.getD (fun _ => "is a required argument")
  let validationFunction : JSValue → Bool :=
    arg.validationFunction.getD defaultValidationFunction
  let errorMessage : JSValue → String :=
    arg.validationFailedMessage.getD defaultErrorMessage
  let argValue : JSValue := lookupArgValue parsedArgs arg
  if !validationFunction argValue then
    (false, [.err (red (arg.name ++ ": " ++ errorMessage argValue))])
  else
    (true, [])

/-- The observable effects of one `validateArgs` run: the chronological
console log and the number of cleanup-callback invocations. -/
structure RunEffects where
  log : List OutLine
  cleanupCalls : Nat
deriving DecidableEq, Repr

/-- How a `validateArgs` run ends: `Deno.exit code`, or a normal return of
the normalized mapping. -/
inductive RunOutcome where
  | exit (code : Nat)
  | ret (parsedArgs : ArgsMap)
deriving DecidableEq, Repr

/-- The success-branch body of the orchestrator's per-argument loop:
`const value = parsedArgs[arg.name] ?? parsedArgs[arg.shortName!];`
`delete parsedArgs[arg.shortName ?? ''];`
`parsedArgs[arg.name] = value;`
Note the two different coercions of an absent short name: the read
`parsedArgs[arg.shortName!]` indexes with JS `undefined`, hence the key
`"undefined"` (`jsKey`), while the delete uses `?? ''`, hence the key `""`. -/
def normalizeStep (m : ArgsMap) (arg : Argument) : ArgsMap :=
  let v1 := getVal m arg.name
  let value := if v1 == .undef then getVal m (jsKey arg.shortName) else v1
  setKey (delKey m (arg.shortName.getD "")) arg.name value

/-- `normalizeStep` folded over a list of arguments. -/
def normalizeAll (m : ArgsMap) (l : List Argument) : ArgsMap :=
  l.foldl normalizeStep m

/-- The per-argument validation loop of `validateArgs` (source lines 79-91):
validate each declared argument in order against the evolving mapping; on
success normalize the mapping, on failure print the help text, run the
cleanup callback when provided, and exit with status 1. -/
def validateArgsLoop (m : ArgsMap) (l : List Argument) (helpText : String)
    (hasCleanup : Bool) : RunOutcome × RunEffects :=
  match l with
  | [] => (.ret m, ⟨[], 0⟩)
  | arg :: rest =>
    let r := validateArgument m arg
    if r.1 then
      let next := validateArgsLoop (normalizeStep m arg) rest helpText hasCleanup
      (next.1, ⟨r.2 ++ next.2.log, next.2.cleanupCalls⟩)
    else
      (.exit 1, ⟨r.2 ++ [.out helpText], if hasCleanup then 1 else 0⟩)

/-- The help flags actually used: `definition.helpFlags ?? ['help', 'h']`. -/
def effHelpFlags (definition : ScriptDefinition) : String × Option String :=
  definition.helpFlags.getD ("help", some "h")

/-- `validateArgs` from the source.  `args` is the raw argument list and
`parsedArgs` the mapping the external `parseArgs` produced from it (the
parser is outside this system; spec §6 treats it as a black box).
`hasCleanup` records whether a `cleanupFunction` was supplied.  The gate
condition `helpFlags[1] as string in parsedArgs` coerces an absent short
help flag to the property key `"undefined"` (`jsKey`). -/
def validateArgs (args : List String) (parsedArgs : ArgsMap)
    (definition : ScriptDefinition) (hasCleanup : Bool) : RunOutcome × RunEffects :=
  let helpFlags := effHelpFlags definition
  let helpText := buildHelpText definition
  if (args.length == 0 && definition.anyArgRequired) || hasKey parsedArgs helpFlags.1 ||
      hasKey parsedArgs (jsKey helpFlags.2) then
    (.exit 0, ⟨[.out helpText], if hasCleanup then 1 else 0⟩)
  else
    validateArgsLoop parsedArgs definition.arguments helpText hasCleanup

/-- Modelled from the spec's words, for comparison with the code's
`maxArgLineLength` (claim about §4.2): "the maximum label length across all
declared arguments AND the help-flag line's own label". -/
def specColumnWidth (definition : ScriptDefinition) : Nat :=
  (definition.arguments.map (fun a => getArgLineLength (a.name, a.shortName))).foldl
    Nat.max (helpLabel (effHelpFlags definition)).length

/-- The arguments processed so far all validated successfully against the
progressively normalized mapping (the state of the orchestrator's loop just
before the next argument is examined). -/
def prefixAllValid : ArgsMap → List Argument → Prop
  | _, [] => True
  | m, a :: rest =>
    (validateArgument m a).1 = true ∧ prefixAllValid (normalizeStep m a) rest

section StringLemmas

theorem sdata_append (a b : String) : (a ++ b).data = a.data ++ b.data := rfl

theorem sappend_assoc (a b c : String) : a ++ b ++ c = a ++ (b ++ c) := by
  cases a with | mk la =>
  cases b with | mk lb =>
  cases c with | mk lc =>
  exact congrArg String.mk (List.append_assoc la lb lc)

theorem slength_append (a b : String) : (a ++ b).length = a.length + b.length := by
  cases a with | mk la =>
  cases b with | mk lb =>
  exact List.length_append la lb

theorem length_spaces (n : Nat) : (spaces n).length = n := by
  simp [spaces, String.length]

end StringLemmas

section ColorLemmas

theorem splitCommaAux_ne_nil (cs acc : List Char) : splitCommaAux cs acc ≠ [] := by
  induction cs generalizing acc with
  | nil => simp [splitCommaAux]
  | cons c cs ih =>
    simp only [splitCommaAux]
    split
    · simp
    · exact ih _

theorem joinCommaChars_splitCommaAux (cs : List Char) :
    ∀ acc, joinCommaChars (splitCommaAux cs acc) = acc.reverse ++ cs := by
  induction cs with
  | nil => intro acc; simp [splitCommaAux, joinCommaChars]
  | cons c cs ih =>
    intro acc
    simp only [splitCommaAux]
    split
    · rename_i hc
      subst hc
      rcases h : splitCommaAux cs [] with _ | ⟨x, xs⟩
      · exact absurd h (splitCommaAux_ne_nil cs [])
      · have hih := ih []
        rw [h] at hih
        simp only [List.reverse_nil, List.nil_append] at hih
        simp only [joinCommaChars, hih]
    · rw [ih (c :: acc)]
      simp

/-- With identity styling, `colorArg` returns the label unchanged: splitting
on commas and re-joining with commas is the identity. -/
theorem colorArg_cyan (s : String) : colorArg s cyan = s := by
  have h1 : (splitComma s).map cyan = splitComma s := List.map_id _
  have h2 : (splitComma s).map String.data = splitCommaAux s.data [] := by
    rw [splitComma, List.map_map]
    have he : (String.data ∘ fun l : List Char => ({ data := l } : String)) = id := by
      funext l; rfl
    rw [he, List.map_id]
  rw [colorArg, h1, joinComma, h2, joinCommaChars_splitCommaAux s.data []]
  rfl

end ColorLemmas

section MapLemmas

theorem getVal_of_not_hasKey {m : ArgsMap} {k : String} (h : hasKey m k = false) :
    getVal m k = .undef := by
  induction m with
  | nil => rfl
  | cons kv rest ih =>
    simp only [hasKey, Bool.or_eq_false_iff] at h
    simp only [getVal, h.1, if_false]
    exact ih h.2

theorem hasKey_setKey_self (m : ArgsMap) (k : String) (v : JSValue) :
    hasKey (setKey m k v) k = true := by
  induction m with
  | nil => simp [setKey, hasKey]
  | cons kv rest ih =>
    by_cases hk : kv.1 == k
    · simp [setKey, hasKey, hk]
    · simp only [setKey, hk, Bool.false_eq_true, if_false, hasKey, ih, Bool.or_true]

theorem hasKey_setKey_ne {k' k : String} (m : ArgsMap) (v : JSValue) (h : k' ≠ k) :
    hasKey (setKey m k' v) k = hasKey m k := by
  induction m with
  | nil => simp [setKey, hasKey, h]
  | cons kv rest ih =>
    by_cases hk : kv.1 == k'
    · simp only [setKey, hk, if_true, hasKey]
    · simp only [setKey, hk, Bool.false_eq_true, if_false, hasKey, ih]

theorem getVal_setKey_self (m : ArgsMap) (k : String) (v : JSValue) :
    getVal (setKey m k v) k = v := by
  induction m with
  | nil => simp [setKey, getVal]
  | cons kv rest ih =>
    by_cases hk : kv.1 == k
    · simp [setKey, getVal, hk]
    · simp only [setKey, hk, Bool.false_eq_true, if_false, getVal, ih]

theorem getVal_setKey_ne {k' k : String} (m : ArgsMap) (v : JSValue) (h : k' ≠ k) :
    getVal (setKey m k' v) k = getVal m k := by
  induction m with
  | nil => simp [setKey, getVal, h]
  | cons kv rest ih =>
    by_cases hk : kv.1 == k'
    · have hkk : (kv.1 == k) = false := by
        simp only [beq_iff_eq] at hk ⊢
        simp [hk, h]
      simp [setKey, getVal, hk, hkk]
    · simp only [setKey, hk, Bool.false_eq_true, if_false, getVal, ih]

theorem hasKey_delKey_self (m : ArgsMap) (k : String) :
    hasKey (delKey m k) k = false := by
  induction m with
  | nil => rfl
  | cons kv rest ih =>
    by_cases hk : kv.1 == k
    · simp only [delKey, hk, if_true, ih]
    · simp only [delKey, hk, Bool.false_eq_true, if_false, hasKey, ih, hk, Bool.or_false]

theorem hasKey_delKey_ne {k' k : String} (m : ArgsMap) (h : k' ≠ k) :
    hasKey (delKey m k') k = hasKey m k := by
  induction m with
  | nil => rfl
  | cons kv rest ih =>
    by_cases hk : kv.1 == k'
    · have hkk : (kv.1 == k) = false := by
        simp only [beq_iff_eq] at hk ⊢
        simp [hk, h]
      simp only [delKey, hk, if_true, ih, hasKey, hkk, Bool.false_or]
    · simp only [delKey, hk, Bool.false_eq_true, if_false, hasKey, ih]

theorem getVal_delKey_ne {k' k : String} (m : ArgsMap) (h : k' ≠ k) :
    getVal (delKey m k') k = getVal m k := by
  induction m with
  | nil => rfl
  | cons kv rest ih =>
    by_cases hk : kv.1 == k'
    · have hkk : (kv.1 == k) = false := by
        simp only [beq_iff_eq] at hk ⊢
        simp [hk, h]
      simp only [delKey, hk, if_true, ih, getVal, hkk, Bool.false_eq_true, if_false]
    · simp only [delKey, hk, Bool.false_eq_true, if_false, getVal, ih]

end MapLemmas

section NormalizeLemmas

theorem hasKey_normalizeStep_ne {k : String} (m : ArgsMap) (b : Argument)
    (hn : b.name ≠ k) (hs : b.shortName.getD "" ≠ k) :
    hasKey (normalizeStep m b) k = hasKey m k := by
  rw [normalizeStep, hasKey_setKey_ne _ _ hn, hasKey_delKey_ne _ hs]

theorem getVal_normalizeStep_ne {k : String} (m : ArgsMap) (b : Argument)
    (hn : b.name ≠ k) (hs : b.shortName.getD "" ≠ k) :
    getVal (normalizeStep m b) k = getVal m k := by
  rw [normalizeStep, getVal_setKey_ne _ _ hn, getVal_delKey_ne _ hs]

theorem not_hasKey_normalizeStep {k : String} (m : ArgsMap) (b : Argument)
    (hm : hasKey m k = false) (hn : b.name ≠ k) :
    hasKey (normalizeStep m b) k = false := by
  rw [normalizeStep, hasKey_setKey_ne _ _ hn]
  by_cases hs : b.shortName.getD "" = k
  · rw [hs, hasKey_delKey_self]
  · rw [hasKey_delKey_ne _ hs, hm]

theorem hasKey_normalizeAll_ne {k : String} (l : List Argument) :
    ∀ m : ArgsMap, (∀ b ∈ l, b.name ≠ k) → (∀ b ∈ l, b.shortName.getD "" ≠ k) →
      hasKey (normalizeAll m l) k = hasKey m k := by
  induction l with
  | nil => intro m _ _; rfl
  | cons b rest ih =>
    intro m hn hs
    have hstep := hasKey_normalizeStep_ne m b (hn b (by simp)) (hs b (by simp))
    have := ih (normalizeStep m b)
      (fun x hx => hn x (List.mem_cons_of_mem _ hx))
      (fun x hx => hs x (List.mem_cons_of_mem _ hx))
    simp only [normalizeAll, List.foldl_cons] at this ⊢
    rw [this, hstep]

theorem getVal_normalizeAll_ne {k : String} (l : List Argument) :
    ∀ m : ArgsMap, (∀ b ∈ l, b.name ≠ k) → (∀ b ∈ l, b.shortName.getD "" ≠ k) →
      getVal (normalizeAll m l) k = getVal m k := by
  induction l with
  | nil => intro m _ _; rfl
  | cons b rest ih =>
    intro m hn hs
    have hstep := getVal_normalizeStep_ne m b (hn b (by simp)) (hs b (by simp))
    have := ih (normalizeStep m b)
      (fun x hx => hn x (List.mem_cons_of_mem _ hx))
      (fun x hx => hs x (List.mem_cons_of_mem _ hx))
    simp only [normalizeAll, List.foldl_cons] at this ⊢
    rw [this, hstep]

theorem not_hasKey_normalizeAll {k : String} (l : List Argument) :
    ∀ m : ArgsMap, hasKey m k = false → (∀ b ∈ l, b.name ≠ k) →
      hasKey (normalizeAll m l) k = false := by
  induction l with
  | nil => intro m hm _; exact hm
  | cons b rest ih =>
    intro m hm hn
    have hstep := not_hasKey_normalizeStep m b hm (hn b (by simp))
    have := ih (normalizeStep m b) hstep (fun x hx => hn x (List.mem_cons_of_mem _ hx))
    simpa only [normalizeAll, List.foldl_cons] using this

end NormalizeLemmas

section LoopLemmas

theorem validateArgument_true_no_log {m : ArgsMap} {a : Argument}
    (h : (validateArgument m a).1 = true) : (validateArgument m a).2 = [] := by
  rw [validateArgument] at h ⊢
  split at h
  · simp at h
  · rename_i hc
    rw [if_neg hc]

theorem validateArgument_false_err {m : ArgsMap} {a : Argument}
    (h : (validateArgument m a).1 = false) :
    ∃ d, (validateArgument m a).2 = [OutLine.err d] := by
  rw [validateArgument] at h ⊢
  split at h
  · rename_i hc
    rw [if_pos hc]
    exact ⟨_, rfl⟩
  · simp at h

theorem validateArgsLoop_ret {l : List Argument} :
    ∀ {m : ArgsMap} {ht : String} {c : Bool} {r : ArgsMap} {eff : RunEffects},
      validateArgsLoop m l ht c = (.ret r, eff) →
        r = normalizeAll m l ∧ eff = ⟨[], 0⟩ := by
  induction l with
  | nil =>
    intro m ht c r eff h
    simp only [validateArgsLoop, Prod.mk.injEq, RunOutcome.ret.injEq] at h
    exact ⟨h.1.symm, h.2.symm⟩
  | cons a rest ih =>
    intro m ht c r eff h
    simp only [validateArgsLoop] at h
    split at h
    · rename_i hval
      obtain ⟨h1, h2⟩ := Prod.mk.injEq .. |>.mp h
      rcases hnext : validateArgsLoop (normalizeStep m a) rest ht c with ⟨o, e⟩
      rw [hnext] at h1 h2
      obtain ⟨hr, heff⟩ := ih (by rw [hnext, ← h1])
      refine ⟨by simpa [normalizeAll] using hr, ?_⟩
      rw [← h2, validateArgument_true_no_log hval]
      simp [heff]
    · simp at h

theorem validateArgsLoop_exit1 {l : List Argument} :
    ∀ {m : ArgsMap} {ht : String} {c : Bool} {eff : RunEffects},
      validateArgsLoop m l ht c = (.exit 1, eff) →
        ∃ pre arg post, l = pre ++ arg :: post ∧ prefixAllValid m pre ∧
          (validateArgument (normalizeAll m pre) arg).1 = false ∧
          eff.log = (validateArgument (normalizeAll m pre) arg).2 ++ [.out ht] ∧
          eff.cleanupCalls = (if c then 1 else 0) := by
  induction l with
  | nil =>
    intro m ht c eff h
    simp only [validateArgsLoop, Prod.mk.injEq] at h
    exact absurd h.1 (by simp)
  | cons a rest ih =>
    intro m ht c eff h
    simp only [validateArgsLoop] at h
    split at h
    · rename_i hval
      rcases hnext : validateArgsLoop (normalizeStep m a) rest ht c with ⟨o, e⟩
      rw [hnext] at h
      obtain ⟨ho, heff⟩ := Prod.mk.injEq .. |>.mp h
      have ho2 : o = RunOutcome.exit 1 := ho
      subst ho2
      subst heff
      obtain ⟨pre, arg, post, hl, hvalid, hfail, hlog, hclean⟩ := ih hnext
      refine ⟨a :: pre, arg, post, by rw [hl]; rfl, ⟨hval, hvalid⟩, ?_, ?_, ?_⟩
      · simpa only [normalizeAll, List.foldl_cons] using hfail
      · show (validateArgument m a).2 ++ e.log = _
        rw [validateArgument_true_no_log hval, List.nil_append, hlog]
        simp only [normalizeAll, List.foldl_cons]
      · exact hclean
    · rename_i hval
      obtain ⟨_, heff⟩ := Prod.mk.injEq .. |>.mp h
      subst heff
      exact ⟨[], a, rest, rfl, trivial, by simpa using hval, rfl, rfl⟩

end LoopLemmas

section RunLemmas

theorem validateArgs_ret {D : ScriptDefinition} {args : List String} {m : ArgsMap}
    {c : Bool} {r : ArgsMap} {eff : RunEffects}
    (h : validateArgs args m D c = (.ret r, eff)) :
    r = normalizeAll m D.arguments ∧ eff = ⟨[], 0⟩ := by
  rw [validateArgs] at h
  split at h
  · simp at h
  · exact validateArgsLoop_ret h

theorem validateArgs_exit1 {D : ScriptDefinition} {args : List String} {m : ArgsMap}
    {c : Bool} {eff : RunEffects}
    (h : validateArgs args m D c = (.exit 1, eff)) :
    ∃ pre arg post, D.arguments = pre ++ arg :: post ∧ prefixAllValid m pre ∧
      (validateArgument (normalizeAll m pre) arg).1 = false ∧
      eff.log = (validateArgument (normalizeAll m pre) arg).2 ++ [.out (buildHelpText D)] ∧
      eff.cleanupCalls = (if c then 1 else 0) := by
  rw [validateArgs] at h
  split at h
  · simp at h
  · exact validateArgsLoop_exit1 h

end RunLemmas

/-- C1: whenever the configured long help flag key, or the configured short
help flag key, is present in the parsed mapping, `validateArgs` prints the
help text, calls the cleanup callback if provided, and exits with status 0 —
regardless of the raw arguments, of the other parsed keys and of
`anyArgRequired`, and without validating any declared argument. -/
theorem validateArgs_help_flag_shows_help_and_exits_zero
    (D : ScriptDefinition) (args : List String) (m : ArgsMap) (c : Bool)
    (h : hasKey m (effHelpFlags D).1 = true ∨
      ∃ s, (effHelpFlags D).2 = some s ∧ hasKey m s = true) :
    validateArgs args m D c =
      (.exit 0, ⟨[.out (buildHelpText D)], if c then 1 else 0⟩) := by
  have hcond : ((args.length == 0 && D.anyArgRequired) || hasKey m (effHelpFlags D).1 ||
      hasKey m (jsKey (effHelpFlags D).2)) = true := by
    rcases h with h | ⟨s, hs, hm⟩
    · simp [h]
    · simp [hs, jsKey, hm]
  rw [validateArgs]
  rw [if_pos hcond]

/-- Witness for C1: the default long help flag `--help` supplied. -/
theorem validateArgs_help_flag_shows_help_and_exits_zero_wit :
    hasKey [("help", JSValue.bool true), ("_", JSValue.strList [])]
        (effHelpFlags ⟨[], "", none, false⟩).1 = true ∧
      validateArgs ["--help"] [("help", JSValue.bool true), ("_", JSValue.strList [])]
          ⟨[], "", none, false⟩ true =
        (.exit 0, ⟨[.out (buildHelpText ⟨[], "", none, false⟩)], 1⟩) :=
  ⟨by decide,
    validateArgs_help_flag_shows_help_and_exits_zero ⟨[], "", none, false⟩ ["--help"]
      [("help", JSValue.bool true), ("_", JSValue.strList [])] true (Or.inl (by decide))⟩

/-- C5: a declaration with no arguments and `anyArgRequired = true`, called
with an empty raw-argument list, shows the help text and exits with
status 0. -/
theorem validateArgs_empty_args_anyArgRequired_help_exit_zero
    (D : ScriptDefinition) (m : ArgsMap) (c : Bool)
    (hargs : D.arguments = []) (hany : D.anyArgRequired = true) :
    validateArgs [] m D c =
      (.exit 0, ⟨[.out (buildHelpText D)], if c then 1 else 0⟩) := by
  have hcond : ((([] : List String).length == 0 && D.anyArgRequired) ||
      hasKey m (effHelpFlags D).1 || hasKey m (jsKey (effHelpFlags D).2)) = true := by
    simp [hany]
  rw [validateArgs]
  rw [if_pos hcond]

/-- Witness for C5. -/
theorem validateArgs_empty_args_anyArgRequired_help_exit_zero_wit :
    (⟨[], "w", none, true⟩ : ScriptDefinition).arguments = [] ∧
      (⟨[], "w", none, true⟩ : ScriptDefinition).anyArgRequired = true ∧
      validateArgs [] [("_", JSValue.strList [])] ⟨[], "w", none, true⟩ false =
        (.exit 0, ⟨[.out (buildHelpText ⟨[], "w", none, true⟩)], 0⟩) :=
  ⟨rfl, rfl,
    validateArgs_empty_args_anyArgRequired_help_exit_zero ⟨[], "w", none, true⟩
      [("_", JSValue.strList [])] false rfl rfl⟩

/-- C2: whenever a `validateArgs` run terminates with status 1, the run
reached the validation loop, some declared argument is the first to fail
(all arguments before it validated successfully against the progressively
normalized mapping), and the effect log is exactly that argument's single
diagnostic followed by the full help text — no diagnostic for any later
argument — with the cleanup callback invoked exactly when provided. -/
theorem validateArgs_first_failure_diag_then_help_exit_one
    (D : ScriptDefinition) (args : List String) (m : ArgsMap) (c : Bool)
    (eff : RunEffects) (h : validateArgs args m D c = (.exit 1, eff)) :
    ∃ pre arg post d, D.arguments = pre ++ arg :: post ∧ prefixAllValid m pre ∧
      (validateArgument (normalizeAll m pre) arg).1 = false ∧
      (validateArgument (normalizeAll m pre) arg).2 = [.err d] ∧
      eff.log = [.err d, .out (buildHelpText D)] ∧
      eff.cleanupCalls = (if c then 1 else 0) := by
  obtain ⟨pre, arg, post, hsplit, hvalid, hfail, hlog, hclean⟩ := validateArgs_exit1 h
  obtain ⟨d, hd⟩ := validateArgument_false_err hfail
  exact ⟨pre, arg, post, d, hsplit, hvalid, hfail, hd, by rw [hlog, hd]; rfl, hclean⟩

/-- Witness for C2: one required argument, nothing supplied, a cleanup
callback provided. -/
theorem validateArgs_first_failure_diag_then_help_exit_one_wit :
    validateArgs [] [("_", JSValue.strList [])]
        ⟨[⟨"req", none, "", none, none, none⟩], "", none, false⟩ true =
      (.exit 1,
        ⟨[.err "req: is a required argument",
          .out (buildHelpText ⟨[⟨"req", none, "", none, none, none⟩], "", none, false⟩)],
         1⟩) ∧
    ∃ pre arg post d,
      (⟨[⟨"req", none, "", none, none, none⟩], "", none, false⟩ :
          ScriptDefinition).arguments = pre ++ arg :: post ∧
      prefixAllValid [("_", JSValue.strList [])] pre ∧
      (validateArgument (normalizeAll [("_", JSValue.strList [])] pre) arg).1 = false ∧
      (validateArgument (normalizeAll [("_", JSValue.strList [])] pre) arg).2 = [.err d] ∧
      (⟨[.err "req: is a required argument",
          .out (buildHelpText ⟨[⟨"req", none, "", none, none, none⟩], "", none, false⟩)],
         1⟩ : RunEffects).log = [.err d, .out (buildHelpText
          ⟨[⟨"req", none, "", none, none, none⟩], "", none, false⟩)] ∧
      (⟨[.err "req: is a required argument",
          .out (buildHelpText ⟨[⟨"req", none, "", none, none, none⟩], "", none, false⟩)],
         1⟩ : RunEffects).cleanupCalls = (if true then 1 else 0) :=
  ⟨by decide,
    validateArgs_first_failure_diag_then_help_exit_one
      ⟨[⟨"req", none, "", none, none, none⟩], "", none, false⟩ []
      [("_", JSValue.strList [])] true _ (by decide)⟩

/-- Counterexample to C6 as stated: the claim quantifies over every
declaration with an empty arguments list and `anyArgRequired = false`, but a
declaration whose configured long help flag is named `_` (the parser's
reserved positionals key, always present) makes `validateArgs` display the
help text and terminate with status 0 instead of returning `{ _: [] }`. -/
theorem empty_invocation_underscore_helpflag_cex :
    validateArgs [] [("_", JSValue.strList [])]
        ⟨[], "", some ("_", none), false⟩ false =
      (.exit 0, ⟨[.out (buildHelpText ⟨[], "", some ("_", none), false⟩)], 0⟩) ∧
    (validateArgs [] [("_", JSValue.strList [])]
        ⟨[], "", some ("_", none), false⟩ false).1 ≠
      .ret [("_", JSValue.strList [])] := by
  refine ⟨by decide, by decide⟩

/-- C6 amended: for every declaration with an empty arguments list and
`anyArgRequired = false` whose effective help flag keys (long, and short
after the JS `undefined` coercion) are not the parser's reserved key `_`,
calling `validateArgs` with an empty raw-argument list returns the mapping
`{ _: [] }` unchanged, with no console output, no cleanup call and no
termination. -/
theorem validateArgs_empty_invocation_returns_underscore
    (D : ScriptDefinition) (c : Bool)
    (hargs : D.arguments = []) (hany : D.anyArgRequired = false)
    (h1 : (effHelpFlags D).1 ≠ "_") (h2 : jsKey (effHelpFlags D).2 ≠ "_") :
    validateArgs [] [("_", JSValue.strList [])] D c =
      (.ret [("_", JSValue.strList [])], ⟨[], 0⟩) := by
  have ha : ("_" : String) ≠ (effHelpFlags D).1 := fun he => h1 he.symm
  have hb : ("_" : String) ≠ jsKey (effHelpFlags D).2 := fun he => h2 he.symm
  have hcond : ((([] : List String).length == 0 && D.anyArgRequired) ||
      hasKey [("_", JSValue.strList [])] (effHelpFlags D).1 ||
      hasKey [("_", JSValue.strList [])] (jsKey (effHelpFlags D).2)) = false := by
    simp [hasKey, hany, ha, hb]
  rw [validateArgs]
  rw [if_neg (by rw [hcond]; simp)]
  rw [hargs]
  rfl

/-- Witness for C6 (amended): the default help flags. -/
theorem validateArgs_empty_invocation_returns_underscore_wit :
    (⟨[], "", none, false⟩ : ScriptDefinition).arguments = [] ∧
      (⟨[], "", none, false⟩ : ScriptDefinition).anyArgRequired = false ∧
      (effHelpFlags ⟨[], "", none, false⟩).1 ≠ "_" ∧
      jsKey (effHelpFlags ⟨[], "", none, false⟩).2 ≠ "_" ∧
      validateArgs [] [("_", JSValue.strList [])] ⟨[], "", none, false⟩ false =
        (.ret [("_", JSValue.strList [])], ⟨[], 0⟩) :=
  ⟨rfl, rfl, by decide, by decide,
    validateArgs_empty_invocation_returns_underscore ⟨[], "", none, false⟩ false rfl rfl
      (by decide) (by decide)⟩

/-- C7: with no custom validation rule, `validateArgument` succeeds exactly
when the looked-up value is truthy or the declaration explicitly sets
`required = false`; on success it emits nothing, and on failure with no
custom message it emits exactly one diagnostic, the argument's long name
followed by ": is a required argument". -/
theorem validateArgument_default_rule_spec
    (m : ArgsMap) (arg : Argument) (hvf : arg.validationFunction = none) :
    ((validateArgument m arg).1 = true ↔
      ((lookupArgValue m arg).truthy = true ∨ arg.required = some false)) ∧
    ((validateArgument m arg).1 = true → (validateArgument m arg).2 = []) ∧
    ((validateArgument m arg).1 = false → arg.validationFailedMessage = none →
      (validateArgument m arg).2 =
        [.err (arg.name ++ ": " ++ "is a required argument")]) := by
  have hfst : (validateArgument m arg).1 =
      ((lookupArgValue m arg).truthy || arg.required == some false) := by
    rw [validateArgument, hvf]
    simp only [Option.getD_none]
    by_cases hb : ((lookupArgValue m arg).truthy || arg.required == some false) = true
    · simp [hb]
    · simp only [Bool.not_eq_true] at hb
      simp [hb]
  refine ⟨?_, fun h => validateArgument_true_no_log h, ?_⟩
  · rw [hfst]
    simp
  · intro hfalse hmsg
    rw [hfst] at hfalse
    rw [validateArgument, hvf, hmsg]
    simp only [Option.getD_none]
    rw [if_pos (by simp [hfalse])]
    rfl

/-- Witness for C7: the repo's own test case, `{ name: 'test2' }` against
`{ _: [] }`. -/
theorem validateArgument_default_rule_spec_wit :
    (⟨"test2", none, "", none, none, none⟩ : Argument).validationFunction = none ∧
    ((validateArgument [("_", JSValue.strList [])]
        ⟨"test2", none, "", none, none, none⟩).1 = true ↔
      ((lookupArgValue [("_", JSValue.strList [])]
          ⟨"test2", none, "", none, none, none⟩).truthy = true ∨
        (⟨"test2", none, "", none, none, none⟩ : Argument).required = some false)) ∧
    ((validateArgument [("_", JSValue.strList [])]
        ⟨"test2", none, "", none, none, none⟩).1 = true →
      (validateArgument [("_", JSValue.strList [])]
        ⟨"test2", none, "", none, none, none⟩).2 = []) ∧
    ((validateArgument [("_", JSValue.strList [])]
        ⟨"test2", none, "", none, none, none⟩).1 = false →
      (⟨"test2", none, "", none, none, none⟩ : Argument).validationFailedMessage = none →
      (validateArgument [("_", JSValue.strList [])]
        ⟨"test2", none, "", none, none, none⟩).2 =
        [.err ((⟨"test2", none, "", none, none, none⟩ : Argument).name ++ ": " ++
          "is a required argument")]) :=
  ⟨rfl,
    validateArgument_default_rule_spec [("_", JSValue.strList [])]
      ⟨"test2", none, "", none, none, none⟩ rfl⟩

section WidthLemmas

theorem le_foldl_max_self (ys : List Nat) : ∀ a : Nat, a ≤ ys.foldl Nat.max a := by
  induction ys with
  | nil => intro a; exact Nat.le_refl a
  | cons y ys ih =>
    intro a
    exact Nat.le_trans (Nat.le_max_left a y) (ih (Nat.max a y))

theorem le_foldl_max_of_mem (ys : List Nat) :
    ∀ (a x : Nat), x ∈ ys → x ≤ ys.foldl Nat.max a := by
  induction ys with
  | nil => intro a x hx; exact absurd hx (List.not_mem_nil x)
  | cons y ys ih =>
    intro a x hx
    rcases List.mem_cons.mp hx with rfl | hx
    · exact Nat.le_trans (Nat.le_max_right a x) (le_foldl_max_self ys (Nat.max a x))
    · exact ih _ x hx

theorem reduceMax_step_eq_max :
    (fun mx cur => if mx < cur then cur else mx) = Nat.max := by
  funext a b
  simp only [Nat.max_def]
  split <;> split <;> omega

theorem le_reduceMax {l : List Nat} {x : Nat} (hx : x ∈ l) : x ≤ reduceMax l := by
  cases l with
  | nil => exact absurd hx (List.not_mem_nil x)
  | cons y ys =>
    rw [reduceMax, reduceMax_step_eq_max]
    rcases List.mem_cons.mp hx with rfl | hx
    · exact le_foldl_max_self ys x
    · exact le_foldl_max_of_mem ys y x hx

theorem argLabel_le_maxArgLineLength (D : ScriptDefinition) (arg : Argument)
    (h : arg ∈ D.arguments) : (argLabel arg).length ≤ maxArgLineLength D := by
  have heq : getArgLineLength (arg.name, arg.shortName) = (argLabel arg).length := rfl
  rw [maxArgLineLength, ← heq]
  exact le_reduceMax
    (List.mem_map_of_mem getArgLineLength
      (List.mem_append_left _ (List.mem_map_of_mem _ h)))

end WidthLemmas

theorem normalizeAll_no_empty_key (l : List Argument) :
    ∀ m : ArgsMap, (∃ a ∈ l, a.shortName = none) → (∀ a ∈ l, a.name ≠ "") →
      hasKey (normalizeAll m l) "" = false := by
  induction l with
  | nil =>
    intro m hex _
    exact absurd hex (by simp)
  | cons b rest ih =>
    intro m hex hn
    rcases hex with ⟨a, ha, hano⟩
    rcases List.mem_cons.mp ha with rfl | harest
    · have hstep : hasKey (normalizeStep m a) "" = false := by
        rw [normalizeStep, hano]
        rw [hasKey_setKey_ne _ _ (hn a (List.mem_cons_self a rest))]
        exact hasKey_delKey_self _ _
      have := not_hasKey_normalizeAll rest (normalizeStep m a) hstep
        (fun x hx => hn x (List.mem_cons_of_mem _ hx))
      simpa only [normalizeAll, List.foldl_cons] using this
    · have := ih (normalizeStep m b) ⟨a, harest, hano⟩
        (fun x hx => hn x (List.mem_cons_of_mem _ hx))
      simpa only [normalizeAll, List.foldl_cons] using this

/-- C10: on the success path, each declared argument without a short name
deletes the empty-string key (`delete parsedArgs[arg.shortName ?? '']` with
an absent short name) before its long-name write; hence, when at least one
declared argument has no short name (and, per the data model, declared
names are non-empty), a parser-produced empty-string key never survives
into the mapping returned on success. -/
theorem empty_string_key_never_survives
    (D : ScriptDefinition) (args : List String) (m : ArgsMap) (c : Bool)
    (r : ArgsMap) (eff : RunEffects)
    (hrun : validateArgs args m D c = (.ret r, eff))
    (hex : ∃ a ∈ D.arguments, a.shortName = none)
    (hn : ∀ a ∈ D.arguments, a.name ≠ "") :
    hasKey r "" = false := by
  obtain ⟨hr, -⟩ := validateArgs_ret hrun
  subst hr
  exact normalizeAll_no_empty_key D.arguments m hex hn

/-- Witness for C10: an optional argument without a short name and a parsed
mapping that contains an empty-string key. -/
theorem empty_string_key_never_survives_wit :
    validateArgs ["--x"] [("", JSValue.str "v"), ("_", JSValue.strList []),
        ("a", JSValue.str "w")]
      ⟨[⟨"a", none, "", some false, none, none⟩], "", none, false⟩ false =
      (.ret [("_", JSValue.strList []), ("a", JSValue.str "w")], ⟨[], 0⟩) ∧
    hasKey [("", JSValue.str "v"), ("_", JSValue.strList []), ("a", JSValue.str "w")]
        "" = true ∧
    hasKey [("_", JSValue.strList []), ("a", JSValue.str "w")] "" = false :=
  ⟨by decide, by decide,
    empty_string_key_never_survives
      ⟨[⟨"a", none, "", some false, none, none⟩], "", none, false⟩ ["--x"]
      [("", JSValue.str "v"), ("_", JSValue.strList []), ("a", JSValue.str "w")] false
      [("_", JSValue.strList []), ("a", JSValue.str "w")] ⟨[], 0⟩ (by decide)
      ⟨⟨"a", none, "", some false, none, none⟩, List.mem_cons_self _ _, rfl⟩
      (by intro b hb; fin_cases hb; decide)⟩

/-- C8: every rendered line decomposes, after the two-space indent and the
plain-text label, into exactly `max(columnWidth - labelLength + 4, 4)`
padding spaces before the required/optional annotation for argument lines,
and exactly `max(3, columnWidth - labelLength + 3)` padding spaces before
the fixed `" - show this help text"` tail for the help-flag line. -/
theorem build_line_padding_formula (arg : Argument) (hf : String × Option String)
    (W : Nat) :
    buildArgLine arg W =
      "  " ++ argLabel arg ++
        spaces (max ((W : Int) - (argLabel arg).length + 4) 4).toNat ++
        ((if arg.required.isSome && !(arg.required.getD true) then "(optional)"
          else "(required)") ++ " - " ++ arg.description) ∧
    buildHelpLine hf W =
      "  " ++ helpLabel hf ++
        spaces (max 3 ((W : Int) - (helpLabel hf).length + 3)).toNat ++
        " - show this help text" := by
  constructor
  · rw [buildArgLine, colorArg_cyan]
    simp only [sappend_assoc]
    rfl
  · rw [buildHelpLine, colorArg_cyan]
    simp only [sappend_assoc]

/-- Counterexample to C4 as stated: the code's shared column width is the
maximum over the declared arguments' labels and the pushed sentinel only;
the help-flag line's own label is not included.  With a single short
argument label (`--a`, length 3) and the default help label (`--help, -h`,
length 10) the two widths differ, and in the rendered text the argument
line's annotation starts at column 9 while the help line's starts at
column 16. -/
theorem columnWidth_excludes_help_label_cex :
    maxArgLineLength ⟨[⟨"a", none, "d", none, none, none⟩], "x", none, false⟩ = 3 ∧
    specColumnWidth ⟨[⟨"a", none, "d", none, none, none⟩], "x", none, false⟩ = 10 ∧
    maxArgLineLength ⟨[⟨"a", none, "d", none, none, none⟩], "x", none, false⟩ ≠
      specColumnWidth ⟨[⟨"a", none, "d", none, none, none⟩], "x", none, false⟩ ∧
    buildHelpText ⟨[⟨"a", none, "d", none, none, none⟩], "x", none, false⟩ =
      "x\nArguments:\n  --a    (required) - d\n\n  --help, -h    - show this help text" := by
  refine ⟨rfl, rfl, by decide, rfl⟩

/-- C4 amended: the shared column width is the maximum label length over the
declared arguments (plus the length-2 sentinel `--`), not including the
help-flag label; whenever the help-flag label's length is at most that
width — in particular whenever some argument label is at least as long —
every rendered line's annotation does start at the same character column,
namely `columnWidth + 6` (for the help line, counting the space that
precedes its dash as part of the shared gap). -/
theorem help_lines_align_when_help_label_within_width
    (D : ScriptDefinition) (arg : Argument) (h1 : arg ∈ D.arguments)
    (h2 : (helpLabel (effHelpFlags D)).length ≤ maxArgLineLength D) :
    ∃ p q : String,
      buildArgLine arg (maxArgLineLength D) =
        p ++ ((if arg.required.isSome && !(arg.required.getD true) then "(optional)"
          else "(required)") ++ " - " ++ arg.description) ∧
      p.length = maxArgLineLength D + 6 ∧
      buildHelpLine (effHelpFlags D) (maxArgLineLength D) =
        q ++ "- show this help text" ∧
      q.length = maxArgLineLength D + 6 := by
  have hlen : (argLabel arg).length ≤ maxArgLineLength D :=
    argLabel_le_maxArgLineLength D arg h1
  refine ⟨"  " ++ argLabel arg ++
      spaces (max ((maxArgLineLength D : Int) - (argLabel arg).length + 4) 4).toNat,
    "  " ++ helpLabel (effHelpFlags D) ++
      spaces (max 3 ((maxArgLineLength D : Int) -
        (helpLabel (effHelpFlags D)).length + 3)).toNat ++ " ", ?_, ?_, ?_, ?_⟩
  · rw [buildArgLine, colorArg_cyan]
    simp only [sappend_assoc]
    rfl
  · rw [slength_append, slength_append, length_spaces]
    have h2l : ("  " : String).length = 2 := rfl
    rw [h2l]
    have hc : ((argLabel arg).length : Int) ≤ (maxArgLineLength D : Int) := by
      exact_mod_cast hlen
    rw [max_eq_left (by omega)]
    omega
  · rw [buildHelpLine, colorArg_cyan]
    have hsp : (" - show this help text" : String) = " " ++ "- show this help text" := rfl
    rw [hsp]
    simp only [sappend_assoc]
  · rw [slength_append, slength_append, slength_append, length_spaces]
    have h2l : ("  " : String).length = 2 := rfl
    have h1l : (" " : String).length = 1 := rfl
    rw [h2l, h1l]
    have hc : ((helpLabel (effHelpFlags D)).length : Int) ≤ (maxArgLineLength D : Int) := by
      exact_mod_cast h2
    rw [max_eq_right (by omega)]
    omega

/-- Witness for C4 (amended): one argument whose label `--longname` is as
long as the default help label. -/
theorem help_lines_align_when_help_label_within_width_wit :
    (⟨"longname", none, "", none, none, none⟩ : Argument) ∈
        (⟨[⟨"longname", none, "", none, none, none⟩], "", none, false⟩ :
          ScriptDefinition).arguments ∧
    (helpLabel (effHelpFlags ⟨[⟨"longname", none, "", none, none, none⟩], "", none,
        false⟩)).length ≤
      maxArgLineLength ⟨[⟨"longname", none, "", none, none, none⟩], "", none, false⟩ ∧
    ∃ p q : String,
      buildArgLine ⟨"longname", none, "", none, none, none⟩
          (maxArgLineLength ⟨[⟨"longname", none, "", none, none, none⟩], "", none,
            false⟩) =
        p ++ ((if (⟨"longname", none, "", none, none, none⟩ : Argument).required.isSome &&
            !((⟨"longname", none, "", none, none, none⟩ : Argument).required.getD true)
          then "(optional)" else "(required)") ++ " - " ++
          (⟨"longname", none, "", none, none, none⟩ : Argument).description) ∧
      p.length = maxArgLineLength ⟨[⟨"longname", none, "", none, none, none⟩], "", none,
          false⟩ + 6 ∧
      buildHelpLine
          (effHelpFlags ⟨[⟨"longname", none, "", none, none, none⟩], "", none, false⟩)
          (maxArgLineLength ⟨[⟨"longname", none, "", none, none, none⟩], "", none,
            false⟩) =
        q ++ "- show this help text" ∧
      q.length = maxArgLineLength ⟨[⟨"longname", none, "", none, none, none⟩], "", none,
          false⟩ + 6 :=
  ⟨List.mem_cons_self _ _, by decide,
    help_lines_align_when_help_label_within_width
      ⟨[⟨"longname", none, "", none, none, none⟩], "", none, false⟩
      ⟨"longname", none, "", none, none, none⟩ (List.mem_cons_self _ _) (by decide)⟩

/-- Counterexample to C3 as stated: the claim asserts the returned mapping
"contains no key equal to the short name" for every declaration, but when a
later declared argument's long name equals that short name, its success-path
write `parsedArgs[arg.name] = value` re-creates the key.  Here the argument
`x` (short name `s`) is supplied only via `-s`, validation succeeds
(the second argument `s` is optional), yet the returned mapping contains the
key `s` again (bound to the `undefined` value). -/
theorem shortName_key_can_survive_cex :
    hasKey [("s", JSValue.str "v"), ("_", JSValue.strList [])] "s" = true ∧
    hasKey [("s", JSValue.str "v"), ("_", JSValue.strList [])] "x" = false ∧
    validateArgs ["-s", "v"] [("s", JSValue.str "v"), ("_", JSValue.strList [])]
        ⟨[⟨"x", some "s", "", none, none, none⟩,
          ⟨"s", none, "", some false, none, none⟩], "", none, false⟩ false =
      (.ret [("_", JSValue.strList []), ("x", JSValue.str "v"), ("s", JSValue.undef)],
        ⟨[], 0⟩) ∧
    hasKey [("_", JSValue.strList []), ("x", JSValue.str "v"), ("s", JSValue.undef)]
        "s" = true := by
  decide

/-- C3 amended: after a successful `validateArgs` run, a declared argument
with a short name that was supplied only via its short form ends up with its
value under the long name and its short-name key removed, provided no
declared long name collides with that short name and no other declared
argument's name or short name collides with this argument's names (the data
model's names are unique and non-empty; short names are single characters,
but nothing prevents a long name from equalling another argument's short
name, which is what the counterexample exploits). -/
theorem validateArgs_success_normalizes_short_to_long
    (D : ScriptDefinition) (args : List String) (m : ArgsMap) (c : Bool)
    (r : ArgsMap) (eff : RunEffects) (pre post : List Argument) (arg : Argument)
    (s : String)
    (hrun : validateArgs args m D c = (.ret r, eff))
    (hsplit : D.arguments = pre ++ arg :: post)
    (hshort : arg.shortName = some s)
    (hms : hasKey m s = true)
    (hmn : hasKey m arg.name = false)
    (hnames : ∀ b ∈ D.arguments, b.name ≠ s)
    (hpreN : ∀ b ∈ pre, b.name ≠ arg.name)
    (hpreS : ∀ b ∈ pre, b.shortName.getD "" ≠ s)
    (hpostN : ∀ b ∈ post, b.name ≠ arg.name)
    (hpostS : ∀ b ∈ post, b.shortName.getD "" ≠ arg.name) :
    hasKey r arg.name = true ∧ getVal r arg.name = getVal m s ∧ hasKey r s = false := by
  obtain ⟨hr, -⟩ := validateArgs_ret hrun
  subst hr
  have hargmem : arg ∈ D.arguments := by
    rw [hsplit]
    exact List.mem_append_right _ (List.mem_cons_self _ _)
  have hns : arg.name ≠ s := hnames arg hargmem
  have hpreNs : ∀ b ∈ pre, b.name ≠ s := fun b hb =>
    hnames b (by rw [hsplit]; exact List.mem_append_left _ hb)
  have hpostNs : ∀ b ∈ post, b.name ≠ s := fun b hb =>
    hnames b (by rw [hsplit]; exact List.mem_append_right _ (List.mem_cons_of_mem _ hb))
  have hfold : normalizeAll m D.arguments =
      normalizeAll (normalizeStep (normalizeAll m pre) arg) post := by
    rw [hsplit]
    simp [normalizeAll, List.foldl_append]
  rw [hfold]
  have hmidn : hasKey (normalizeAll m pre) arg.name = false :=
    not_hasKey_normalizeAll pre m hmn hpreN
  have hmids : getVal (normalizeAll m pre) s = getVal m s :=
    getVal_normalizeAll_ne pre m hpreNs hpreS
  have hstep : normalizeStep (normalizeAll m pre) arg =
      setKey (delKey (normalizeAll m pre) s) arg.name (getVal (normalizeAll m pre) s) := by
    rw [normalizeStep, getVal_of_not_hasKey hmidn]
    simp [hshort, jsKey]
  rw [hstep]
  have hgd : arg.shortName.getD "" = s := by rw [hshort]; rfl
  refine ⟨?_, ?_, ?_⟩
  · rw [hasKey_normalizeAll_ne post _ hpostN hpostS]
    exact hasKey_setKey_self _ _ _
  · rw [getVal_normalizeAll_ne post _ hpostN hpostS, getVal_setKey_self, hmids]
  · rw [not_hasKey_normalizeAll post _ _ hpostNs]
    rw [hasKey_setKey_ne _ _ hns, hasKey_delKey_self]

/-- Witness for C3 (amended): `{ name: 'test', shortName: 't' }` supplied as
`-t v`. -/
theorem validateArgs_success_normalizes_short_to_long_wit :
    validateArgs ["-t", "v"] [("t", JSValue.str "v"), ("_", JSValue.strList [])]
        ⟨[⟨"test", some "t", "", none, none, none⟩], "", none, false⟩ false =
      (.ret [("_", JSValue.strList []), ("test", JSValue.str "v")], ⟨[], 0⟩) ∧
    hasKey [("_", JSValue.strList []), ("test", JSValue.str "v")] "test" = true ∧
    getVal [("_", JSValue.strList []), ("test", JSValue.str "v")] "test" =
      getVal [("t", JSValue.str "v"), ("_", JSValue.strList [])] "t" ∧
    hasKey [("_", JSValue.strList []), ("test", JSValue.str "v")] "t" = false :=
  ⟨by decide,
    validateArgs_success_normalizes_short_to_long
      ⟨[⟨"test", some "t", "", none, none, none⟩], "", none, false⟩ ["-t", "v"]
      [("t", JSValue.str "v"), ("_", JSValue.strList [])] false
      [("_", JSValue.strList []), ("test", JSValue.str "v")] ⟨[], 0⟩
      [] [] ⟨"test", some "t", "", none, none, none⟩ "t"
      (by decide) rfl rfl (by decide) (by decide)
      (by intro b hb; fin_cases hb; decide)
      (by intro b hb; exact absurd hb (List.not_mem_nil b))
      (by intro b hb; exact absurd hb (List.not_mem_nil b))
      (by intro b hb; exact absurd hb (List.not_mem_nil b))
      (by intro b hb; exact absurd hb (List.not_mem_nil b))⟩

/-- C9: when the declaration's `helpFlags` pair has no short flag, the gate
tests `helpFlags[1] as string in parsedArgs`, which coerces the absent flag
to the property key `"undefined"`; any parsed mapping containing a key
literally named `undefined` therefore fires the help gate. -/
theorem absent_short_helpflag_undefined_key_gate
    (D : ScriptDefinition) (args : List String) (m : ArgsMap) (c : Bool)
    (long : String) (hflags : D.helpFlags = some (long, none))
    (hm : hasKey m "undefined" = true) :
    validateArgs args m D c =
      (.exit 0, ⟨[.out (buildHelpText D)], if c then 1 else 0⟩) := by
  have hcond : ((args.length == 0 && D.anyArgRequired) || hasKey m (effHelpFlags D).1 ||
      hasKey m (jsKey (effHelpFlags D).2)) = true := by
    have h2 : (effHelpFlags D).2 = none := by simp [effHelpFlags, hflags]
    simp [h2, jsKey, hm]
  rw [validateArgs]
  rw [if_pos hcond]

/-- Witness for C9: `helpFlags: ['test']` and raw args `['--undefined']`
(which `parseArgs` turns into the key `undefined`); the configured help flag
itself is absent from the mapping. -/
theorem absent_short_helpflag_undefined_key_gate_wit :
    (⟨[], "", some ("test", none), false⟩ : ScriptDefinition).helpFlags =
        some ("test", none) ∧
      hasKey [("undefined", JSValue.bool true), ("_", JSValue.strList [])] "undefined" = true ∧
      hasKey [("undefined", JSValue.bool true), ("_", JSValue.strList [])] "test" = false ∧
      validateArgs ["--undefined"]
          [("undefined", JSValue.bool true), ("_", JSValue.strList [])]
          ⟨[], "", some ("test", none), false⟩ false =
        (.exit 0, ⟨[.out (buildHelpText ⟨[], "", some ("test", none), false⟩)], 0⟩) :=
  ⟨rfl, by decide, by decide,
    absent_short_helpflag_undefined_key_gate ⟨[], "", some ("test", none), false⟩
      ["--undefined"] [("undefined", JSValue.bool true), ("_", JSValue.strList [])] false
      "test" rfl (by decide)⟩

